import Mathlib

/-!
Shallow embedding of `src/chapterizer.ts` (video_chapterizer).

JavaScript strings are modelled as `List Char`; the input byte stream is
ASCII, so the `TextDecoder` step is the identity and chunks are modelled
as `List Char` directly.  JavaScript numbers produced by
`parseInt(matches[i])` on `\d+` captures are non-negative integers and
are modelled as `Nat`; the one place the code subtracts
(`frame.pts_time - lastFrame.pts_time > 180`) is modelled with the
coercion to `Int`, matching JS semantics on integer values.

The two regular expressions of the source,

  `KeyFrame.frameRegEX  = /.*pts_time=(\d+).*pkt_pos=(\d+).*/su`
  `KeyFrameCollector.frameRegEx = /\[FRAME\](.*key_frame=(\d).*)\[\/FRAME\]/su`

are embedded by their exact match semantics (leftmost match, greedy `.*`
with backtracking, dot-matches-newline): a greedy `.*` before a literal
resolves to the *last* position of that literal from which the rest of
the pattern can still match.  The derivations are spelled out at the
corresponding definitions below.
-/

namespace Chapterizer

/-- `pat.isPrefixOf (s.drop i)`: the literal `pat` occurs in `s` at index `i`. -/
def occursAtPos (pat s : List Char) (i : Nat) : Bool :=
  pat.isPrefixOf (s.drop i)

/-- there is an ASCII digit at index `i` of `s`.  With the `u` flag, `\d`
matches exactly `[0-9]`, which is `Char.isDigit`. -/
def digitAt (s : List Char) (i : Nat) : Bool :=
  match s.drop i with
  | c :: _ => c.isDigit
  | [] => false

/-- index of the first occurrence of `pat` in `s`. -/
def firstOcc (pat s : List Char) : Option Nat :=
  (List.range s.length).find? (fun i => occursAtPos pat s i)

/-- the largest index `< s.length` satisfying `p` (used for the greedy
`.*` backtracking semantics: the last feasible position of a literal). -/
def lastSat (s : List Char) (p : Nat → Bool) : Option Nat :=
  ((List.range s.length).filter p).getLast?

/-- `pat` occurs somewhere in `s`. -/
def containsSub (pat s : List Char) : Bool :=
  (List.range s.length).any (fun i => occursAtPos pat s i)

/-- maximal digit run, the `(\d+)` greedy capture starting at a fixed index. -/
def digitRun (s : List Char) : List Char :=
  s.takeWhile Char.isDigit

/-- decimal value of a digit string; `parseInt` on a `(\d+)` capture. -/
def natOfDigits (ds : List Char) : Nat :=
  ds.foldl (fun n c => 10 * n + (c.toNat - 48)) 0

def ptsField : List Char := ['p', 't', 's', '_', 't', 'i', 'm', 'e', '=']

def pktField : List Char := ['p', 'k', 't', '_', 'p', 'o', 's', '=']

def openMarker : List Char := ['[', 'F', 'R', 'A', 'M', 'E', ']']

def closeMarker : List Char := ['[', '/', 'F', 'R', 'A', 'M', 'E', ']']

def keyFrameField : List Char := ['k', 'e', 'y', '_', 'f', 'r', 'a', 'm', 'e', '=']

/-- `class KeyFrame`: `pts_time` and `pkt_pos`, both produced by
`parseInt` on `\d+` captures. -/
structure KeyFrame where
  pts_time : Nat
  pkt_pos : Nat
deriving DecidableEq

/-- Feasibility of a candidate position `a` for the first greedy `.*` of
`KeyFrame.frameRegEX = .*pts_time=(\d+).*pkt_pos=(\d+).*`: the literal
`pts_time=` occurs at `a` (9 characters), at least one digit follows at
`a + 9`, and the remainder `.*pkt_pos=(\d+).*` matches afterwards, i.e.
`pkt_pos=` followed by a digit occurs at some `b ≥ a + 10` (the `(\d+)`
capture can backtrack down to a single digit; an occurrence of the
non-digit character `p` cannot start inside the digit run anyway). -/
def ptsCandidate (g : List Char) (a : Nat) : Bool :=
  occursAtPos ptsField g a && digitAt g (a + 9) &&
    (List.range g.length).any (fun b =>
      decide (a + 10 ≤ b) && occursAtPos pktField g b && digitAt g (b + 8))

/-- The `KeyFrame` constructor: match
`/.*pts_time=(\d+).*pkt_pos=(\d+).*/su` against the frame data and take
`parseInt` of the two captures; on a failed match the constructor throws
(`couldn't parse framedata`), modelled by `none`.  Greedy matching picks
the last feasible `pts_time=` occurrence `a`, captures the maximal digit
run after it, then the last `pkt_pos=`-with-digit occurrence `b ≥ a + 10`,
and captures the maximal digit run after that.  (When the regex matches,
the match array has length 3, so the `matches.length < 3` test in the
source never fires on a successful match.) -/
def parseKeyFrame (g : List Char) : Option KeyFrame :=
  match lastSat g (ptsCandidate g) with
  | none => none
  | some a =>
    match lastSat g (fun b =>
        decide (a + 10 ≤ b) && occursAtPos pktField g b && digitAt g (b + 8)) with
    | none => none
    | some b =>
      some ⟨natOfDigits (digitRun (g.drop (a + 9))), natOfDigits (digitRun (g.drop (b + 8)))⟩

/-- Result of matching `KeyFrameCollector.frameRegEx` against the buffer:
match start `mStart` (position of the first `[FRAME]`), the position
`kfPos` of the `key_frame=` literal chosen by the greedy first `.*`, the
position `closePos` of the `[/FRAME]` chosen by the greedy second `.*`,
the captured flag digit (`matches[2]`) and the captured group 1
(`matches[1]`, everything strictly between the two markers). -/
structure FrameMatch where
  mStart : Nat
  kfPos : Nat
  closePos : Nat
  flag : Char
  group1 : List Char
deriving DecidableEq

/-- Feasibility of a candidate position `j` for the first greedy `.*`
inside `/\[FRAME\](.*key_frame=(\d).*)\[\/FRAME\]/su` at match start `i`:
`key_frame=` occurs at `j ≥ i + 7` (past the 7-character `[FRAME]`), a
digit follows at `j + 10`, and a closing `[/FRAME]` occurs at some
`k ≥ j + 11`. -/
def keyCandidate (s : List Char) (i j : Nat) : Bool :=
  decide (i + 7 ≤ j) && occursAtPos keyFrameField s j && digitAt s (j + 10) &&
    (List.range s.length).any (fun k =>
      decide (j + 11 ≤ k) && occursAtPos closeMarker s k)

/-- `this.stringBuffer.match(this.frameRegEx)` for
`frameRegEx = /\[FRAME\](.*key_frame=(\d).*)\[\/FRAME\]/su`.
The leftmost match starts at the first occurrence `i` of `[FRAME]`
(if any later occurrence admits a match then so does the first, since
the dotall `.*` may span anything, including further markers); the first
greedy `.*` puts `key_frame=` at the last feasible position `j`; the
second greedy `.*` puts `[/FRAME]` at the last occurrence `k ≥ j + 11`.
Note the greediness: when several complete blocks sit in the buffer the
single match spans from the first opening marker to the *last* closing
marker. -/
def matchFrame (s : List Char) : Option FrameMatch :=
  match firstOcc openMarker s with
  | none => none
  | some i =>
    match lastSat s (keyCandidate s i) with
    | none => none
    | some j =>
      match lastSat s (fun k =>
          decide (j + 11 ≤ k) && occursAtPos closeMarker s k) with
      | none => none
      | some k =>
        some ⟨i, j, k, (s.drop (j + 10)).headD ' ', (s.drop (i + 7)).take (k - (i + 7))⟩

/-- `this.stringBuffer.replace(this.frameRegEx, "")`: remove the matched
span (from the opening marker through the 8-character closing marker). -/
def removeMatch (s : List Char) (m : FrameMatch) : List Char :=
  s.take m.mStart ++ s.drop (m.closePos + 8)

/-- `KeyFrameCollector` instance state: the pending `stringBuffer` and
the accumulated `keyFrames` sequence. -/
structure CollectorState where
  stringBuffer : List Char
  keyFrames : List KeyFrame
deriving DecidableEq

/-- Outcome of a `write` call: normal return, or a thrown exception
(message plus the state the collector object is left in — the JS `throw`
inside the loop aborts `write` before the buffer is advanced). -/
inductive WriteResult where
  | ok (st : CollectorState)
  | err (msg : List Char) (st : CollectorState)
deriving DecidableEq

def parseErrMsg : List Char := ("couldn't parse framedata").data

/-- The `while` loop of `KeyFrameCollector.write`: as long as the buffer
matches `frameRegEx`, push `new KeyFrame(matches[1])` when the captured
flag `matches[2]` is `"1"` (a failed `KeyFrame` construction throws out
of `write`, leaving the buffer untouched), then remove the matched span.
The loop is driven by fuel; each iteration removes at least the two
markers plus `key_frame=` and its digit (≥ 26 characters) from the
buffer, so `buffer.length + 1` units of fuel are never exhausted. -/
def writeLoop : Nat → CollectorState → WriteResult
  | 0, st => .ok st
  | fuel + 1, st =>
    match matchFrame st.stringBuffer with
    | none => .ok st
    | some m =>
      if m.flag = '1' then
        match parseKeyFrame m.group1 with
        | none => .err parseErrMsg st
        | some kf =>
          writeLoop fuel ⟨removeMatch st.stringBuffer m, st.keyFrames ++ [kf]⟩
      else
        writeLoop fuel ⟨removeMatch st.stringBuffer m, st.keyFrames⟩

/-- `KeyFrameCollector.write`: append the decoded chunk to the buffer,
then run the matching loop. -/
def write (st : CollectorState) (chunk : List Char) : WriteResult :=
  writeLoop ((st.stringBuffer ++ chunk).length + 1)
    ⟨st.stringBuffer ++ chunk, st.keyFrames⟩

/-- a fresh `KeyFrameCollector`. -/
def collectorInit : CollectorState := ⟨[], []⟩

/-- feed a list of chunks in order; a thrown error aborts the sequence
(the stream is errored). -/
def feedChunks (st : CollectorState) : List (List Char) → WriteResult
  | [] => .ok st
  | c :: cs =>
    match write st c with
    | .ok st' => feedChunks st' cs
    | .err msg stE => .err msg stE

/-- the `for` loop of `KeyFrameCollector.filterFrames` with the running
`lastFrame` baseline. -/
def filterAux (lastF : KeyFrame) : List KeyFrame → List KeyFrame
  | [] => []
  | f :: rest =>
    if (f.pts_time : Int) - (lastF.pts_time : Int) > 180 then
      f :: filterAux f rest
    else
      filterAux lastF rest

/-- `KeyFrameCollector.filterFrames`: seed `lastFrame` with
`keyFrames[0]` and scan the whole sequence (on the empty sequence the
`undefined` baseline is never consulted, and the result is empty). -/
def filterFrames : List KeyFrame → List KeyFrame
  | [] => []
  | f :: rest => filterAux f (f :: rest)

/-- `class KeyFrameCollection`, holding the frames handed to its
constructor. -/
structure KeyFrameCollection where
  keyFrames : List KeyFrame
deriving DecidableEq

/-- `KeyFrameCollector.close`: resolve the completion promise with
`new KeyFrameCollection(this.filterFrames())`; the value the promise is
fulfilled with. -/
def close (st : CollectorState) : KeyFrameCollection :=
  ⟨filterFrames st.keyFrames⟩

/-- decimal rendering digits, structurally recursive on a fuel bound
(`n / 10 < n`, so `n + 1` units of fuel always suffice). -/
def natDigitsAux : Nat → Nat → List Char
  | 0, _ => []
  | fuel + 1, n =>
    if n < 10 then
      [Char.ofNat (48 + n % 10)]
    else
      natDigitsAux fuel (n / 10) ++ [Char.ofNat (48 + n % 10)]

/-- decimal rendering of a `Nat`, as JS string interpolation of an
integer-valued number produces it. -/
def natDigits (n : Nat) : List Char :=
  natDigitsAux (n + 1) n

/-- The chapter-record loop of
`KeyFrameCollection.generateChapterMetadata`.  The first parameter is
`lastFrame`'s timestamp (`none` on the first iteration, where the source
emits `START=0` and `title=Chapter 1`), the second the position of the
current frame in the collection (`this.keyFrames.indexOf(frame)` — each
`KeyFrame` object is pushed exactly once, so reference-equality
`indexOf` is the positional index). -/
def chapterBlocks : Option Nat → Nat → List KeyFrame → List Char
  | _, _, [] => []
  | none, idx, f :: rest =>
    ("[CHAPTER]\nTIMEBASE=1/1\nSTART=0\nEND=").data ++ natDigits f.pts_time ++
      ("\ntitle=Chapter 1\n").data ++ chapterBlocks (some f.pts_time) (idx + 1) rest
  | some lastT, idx, f :: rest =>
    ("[CHAPTER]\nTIMEBASE=1/1\nSTART=").data ++ natDigits lastT ++
      ("\nEND=").data ++ natDigits f.pts_time ++
      ("\ntitle=Chapter ").data ++ natDigits (idx + 1) ++ ("\n").data ++
      chapterBlocks (some f.pts_time) (idx + 1) rest

/-- `KeyFrameCollection.generateChapterMetadata`: the `;FFMETADATA1`
header line followed by one record block per frame of the collection. -/
def generateChapterMetadata (keyFrames : List KeyFrame) : List Char :=
  (";FFMETADATA1\n").data ++ chapterBlocks none 0 keyFrames

/-! ### Basic facts about the scanning primitives -/

theorem head?_mem {α : Type} {l : List α} {a : α} (h : a ∈ l.head?) : a ∈ l := by
  cases l with
  | nil => simp at h
  | cons x xs =>
    simp only [List.head?_cons, Option.mem_def, Option.some.injEq] at h
    simp [h]

theorem getLast?_mem {α : Type} {l : List α} {a : α} (h : l.getLast? = some a) : a ∈ l := by
  have hne : l ≠ [] := by rintro rfl; simp at h
  rw [List.getLast?_eq_getLast l hne] at h
  rw [← Option.some_inj.mp h]
  exact List.getLast_mem hne

theorem lastSat_pred {s : List Char} {p : Nat → Bool} {j : Nat}
    (h : lastSat s p = some j) : p j = true ∧ j < s.length := by
  have hm := getLast?_mem h
  rw [List.mem_filter] at hm
  exact ⟨hm.2, List.mem_range.mp hm.1⟩

theorem lastSat_isSome (s : List Char) (p : Nat → Bool) {j : Nat}
    (hj : j < s.length) (hp : p j = true) : ∃ i, lastSat s p = some i := by
  have hm : j ∈ (List.range s.length).filter p :=
    List.mem_filter.mpr ⟨List.mem_range.mpr hj, hp⟩
  have hne : (List.range s.length).filter p ≠ [] := List.ne_nil_of_mem hm
  have := List.getLast?_isSome.mpr hne
  rcases Option.isSome_iff_exists.mp this with ⟨i, hi⟩
  exact ⟨i, hi⟩

theorem firstOcc_pred {pat s : List Char} {i : Nat}
    (h : firstOcc pat s = some i) : occursAtPos pat s i = true ∧ i < s.length :=
  ⟨List.find?_some h, List.mem_range.mp (List.mem_of_find?_eq_some h)⟩

theorem digitAt_lt {s : List Char} {i : Nat} (h : digitAt s i = true) : i < s.length := by
  by_contra hge
  have : s.drop i = [] := List.drop_eq_nil_of_le (by omega)
  rw [digitAt, this] at h
  exact Bool.noConfusion h

theorem occursAtPos_le {pat s : List Char} {i : Nat} (hi : i < s.length)
    (h : occursAtPos pat s i = true) : i + pat.length ≤ s.length := by
  have hp : pat <+: s.drop i := List.isPrefixOf_iff_prefix.mp h
  have := hp.length_le
  rw [List.length_drop] at this
  omega

/-! ### Decimal rendering facts -/

theorem digitCharVal {r : Nat} (h : r < 10) : (Char.ofNat (48 + r)).toNat = 48 + r := by
  interval_cases r <;> decide

theorem digitCharIsDigit {r : Nat} (h : r < 10) : (Char.ofNat (48 + r)).isDigit = true := by
  interval_cases r <;> decide

theorem natDigitsAux_digits {fuel : Nat} : ∀ {n : Nat}, n < fuel →
    ∀ c ∈ natDigitsAux fuel n, c.isDigit = true := by
  induction fuel with
  | zero => omega
  | succ f ih =>
    intro n hn c hc
    by_cases h : n < 10
    · rw [natDigitsAux, if_pos h] at hc
      rcases List.mem_singleton.mp hc with rfl
      exact digitCharIsDigit (by omega)
    · rw [natDigitsAux, if_neg h] at hc
      rcases List.mem_append.mp hc with hc | hc
      · have hdiv : n / 10 < f := by
          have h1 : n / 10 < n := Nat.div_lt_self (by omega) (by omega)
          omega
        exact ih hdiv c hc
      · rcases List.mem_singleton.mp hc with rfl
        exact digitCharIsDigit (Nat.mod_lt _ (by omega))

theorem natDigits_digits {n : Nat} : ∀ c ∈ natDigits n, c.isDigit = true :=
  natDigitsAux_digits (Nat.lt_succ_self n)

theorem natDigits_ne_newline {n : Nat} : '\n' ∉ natDigits n := by
  intro h
  have := natDigits_digits '\n' h
  exact Bool.noConfusion this

theorem natDigitsAux_ne_nil {fuel : Nat} : ∀ {n : Nat}, n < fuel →
    natDigitsAux fuel n ≠ [] := by
  induction fuel with
  | zero => omega
  | succ f _ =>
    intro n _
    by_cases h : n < 10
    · rw [natDigitsAux, if_pos h]; simp
    · rw [natDigitsAux, if_neg h]; simp

theorem natDigits_ne_nil {n : Nat} : natDigits n ≠ [] :=
  natDigitsAux_ne_nil (Nat.lt_succ_self n)

theorem natOfDigits_append_one (xs : List Char) (c : Char) :
    natOfDigits (xs ++ [c]) = 10 * natOfDigits xs + (c.toNat - 48) := by
  rw [natOfDigits, List.foldl_append]
  rfl

theorem natOfDigits_natDigitsAux {fuel : Nat} : ∀ {n : Nat}, n < fuel →
    natOfDigits (natDigitsAux fuel n) = n := by
  induction fuel with
  | zero => omega
  | succ f ih =>
    intro n hn
    by_cases h : n < 10
    · rw [natDigitsAux, if_pos h]
      have hr : n % 10 = n := Nat.mod_eq_of_lt h
      rw [hr]
      have hv := digitCharVal h
      rw [natOfDigits]
      simp only [List.foldl_cons, List.foldl_nil]
      omega
    · rw [natDigitsAux, if_neg h, natOfDigits_append_one]
      have hdiv : n / 10 < f := by
        have h1 : n / 10 < n := Nat.div_lt_self (by omega) (by omega)
        omega
      rw [ih hdiv]
      have hv := digitCharVal (Nat.mod_lt n (show 0 < 10 by omega))
      omega

theorem natOfDigits_natDigits (n : Nat) : natOfDigits (natDigits n) = n :=
  natOfDigits_natDigitsAux (Nat.lt_succ_self n)

/-! ### Claim theorems: concrete functional cases -/

/-- Claim C4: on the keyframe sequence with timestamps
`[0, 50, 200, 210, 400]`, `filterFrames` selects exactly the keyframes
at `200` and `400`, and `generateChapterMetadata` on that selection
renders exactly two chapter records, the first with `START=0`/`END=200`
and the second with `START=200`/`END=400`. -/
theorem claimC4_concrete_selection :
    filterFrames [⟨0, 10⟩, ⟨50, 11⟩, ⟨200, 12⟩, ⟨210, 13⟩, ⟨400, 14⟩] =
      [⟨200, 12⟩, ⟨400, 14⟩] ∧
    generateChapterMetadata [⟨200, 12⟩, ⟨400, 14⟩] =
      (";FFMETADATA1\n[CHAPTER]\nTIMEBASE=1/1\nSTART=0\nEND=200\ntitle=Chapter 1\n[CHAPTER]\nTIMEBASE=1/1\nSTART=200\nEND=400\ntitle=Chapter 2\n").data := by
  exact ⟨by decide, by decide⟩

/-- Claim C5: a keyframe sequence with fewer than two elements (empty,
or any single keyframe, e.g. one at timestamp 500) yields an empty
boundary list from `filterFrames`, and `generateChapterMetadata` of the
empty selection is the header line only, with zero chapter records. -/
theorem claimC5_short_sequences :
    filterFrames [] = [] ∧
    (∀ k : KeyFrame, filterFrames [k] = []) ∧
    filterFrames [⟨500, 0⟩] = [] ∧
    generateChapterMetadata [] = (";FFMETADATA1\n").data := by
  refine ⟨rfl, ?_, by decide, rfl⟩
  intro k
  rw [filterFrames, filterAux]
  have : ¬((k.pts_time : Int) - (k.pts_time : Int) > 180) := by omega
  rw [if_neg this]
  rfl

/-- Claim C7: `close` fulfills the completion value with the
`KeyFrameCollection` built from `filterFrames` of the accumulated
keyframes — the filtered sequence, never the raw one (on the two-frame
state below the two differ). -/
theorem claimC7_close_resolves_filtered :
    (∀ st : CollectorState, close st = ⟨filterFrames st.keyFrames⟩) ∧
    (close ⟨[], [⟨0, 0⟩, ⟨50, 1⟩]⟩).keyFrames ≠ [⟨0, 0⟩, ⟨50, 1⟩] :=
  ⟨fun _ => rfl, by decide⟩

/-- Claim C1 (code bug demonstration): feeding two complete keyframe
blocks as a single chunk is *not* equivalent to feeding them as two
chunks or one byte at a time.  The greedy `frameRegEx` matches from the
first `[FRAME]` to the last `[/FRAME]`, so the single-chunk feed merges
both blocks into one match and records a single keyframe, while the
split feeds record both. -/
theorem claimC1_chunk_dependence_demo :
    write collectorInit
        (("[FRAME]key_frame=1pts_time=1pkt_pos=2[/FRAME][FRAME]key_frame=1pts_time=300pkt_pos=4[/FRAME]").data) =
      .ok ⟨[], [⟨300, 4⟩]⟩ ∧
    feedChunks collectorInit
        [("[FRAME]key_frame=1pts_time=1pkt_pos=2[/FRAME]").data,
         ("[FRAME]key_frame=1pts_time=300pkt_pos=4[/FRAME]").data] =
      .ok ⟨[], [⟨1, 2⟩, ⟨300, 4⟩]⟩ ∧
    feedChunks collectorInit
        ((("[FRAME]key_frame=1pts_time=1pkt_pos=2[/FRAME][FRAME]key_frame=1pts_time=300pkt_pos=4[/FRAME]").data).map
          (fun c => [c])) =
      .ok ⟨[], [⟨1, 2⟩, ⟨300, 4⟩]⟩ := by
  exact ⟨by decide, by decide, by decide⟩

/-! ### The Selector invariant -/

theorem filterAux_gap (xs : List KeyFrame) : ∀ (lastF : KeyFrame),
    ∀ g ∈ filterAux lastF xs, (lastF.pts_time : Int) + 180 < (g.pts_time : Int) := by
  induction xs with
  | nil => intro lastF g hg; rw [filterAux] at hg; exact absurd hg (List.not_mem_nil g)
  | cons f rest ih =>
    intro lastF g hg
    by_cases h : (f.pts_time : Int) - (lastF.pts_time : Int) > 180
    · rw [filterAux, if_pos h] at hg
      rcases List.mem_cons.mp hg with rfl | hg
      · omega
      · have := ih f g hg
        omega
    · rw [filterAux, if_neg h] at hg
      exact ih lastF g hg

theorem filterAux_chain (xs : List KeyFrame) : ∀ (lastF : KeyFrame),
    List.Chain' (fun a b => (a.pts_time : Int) + 180 < (b.pts_time : Int))
      (filterAux lastF xs) := by
  induction xs with
  | nil => intro lastF; rw [filterAux]; exact List.chain'_nil
  | cons f rest ih =>
    intro lastF
    by_cases h : (f.pts_time : Int) - (lastF.pts_time : Int) > 180
    · rw [filterAux, if_pos h]
      rw [List.chain'_cons']
      refine ⟨?_, ih f⟩
      intro y hy
      exact filterAux_gap rest f y (head?_mem hy)
    · rw [filterAux, if_neg h]
      exact ih lastF

/-- Claim C3: for every keyframe sequence, the output of `filterFrames`
has timestamps in which each selected element exceeds the previous
selected one by strictly more than 180 units (hence the timestamps are
strictly increasing), and the first element of the raw sequence is never
itself emitted as a boundary. -/
theorem claimC3_threshold_invariant (kfs : List KeyFrame) :
    List.Chain' (fun a b => (a.pts_time : Int) + 180 < (b.pts_time : Int))
      (filterFrames kfs) ∧
    List.Chain' (fun a b => a.pts_time < b.pts_time) (filterFrames kfs) ∧
    ∀ f rest, kfs = f :: rest → f ∉ filterFrames kfs := by
  have hchain : List.Chain' (fun a b => (a.pts_time : Int) + 180 < (b.pts_time : Int))
      (filterFrames kfs) := by
    cases kfs with
    | nil => rw [filterFrames]; exact List.chain'_nil
    | cons f rest => rw [filterFrames]; exact filterAux_chain (f :: rest) f
  refine ⟨hchain, hchain.imp ?_, ?_⟩
  · intro a b hab
    omega
  · rintro f rest rfl hmem
    rw [filterFrames] at hmem
    have := filterAux_gap (f :: rest) f f hmem
    omega

/-- Witness for claim C3 at the concrete sequence
`[(0, 10), (200, 11), (400, 12)]`. -/
theorem claimC3_threshold_invariant_witness :
    List.Chain' (fun a b => (a.pts_time : Int) + 180 < (b.pts_time : Int))
      (filterFrames [⟨0, 10⟩, ⟨200, 11⟩, ⟨400, 12⟩]) ∧
    (⟨0, 10⟩ : KeyFrame) ∉ filterFrames [⟨0, 10⟩, ⟨200, 11⟩, ⟨400, 12⟩] := by
  have h := claimC3_threshold_invariant [⟨0, 10⟩, ⟨200, 11⟩, ⟨400, 12⟩]
  exact ⟨h.1, h.2.2 ⟨0, 10⟩ [⟨200, 11⟩, ⟨400, 12⟩] rfl⟩

/-! ### Noninterference of byte offsets -/

theorem filterAux_map_pts : ∀ (xs ys : List KeyFrame) (lastF lastG : KeyFrame),
    lastF.pts_time = lastG.pts_time →
    xs.map KeyFrame.pts_time = ys.map KeyFrame.pts_time →
    (filterAux lastF xs).map KeyFrame.pts_time =
      (filterAux lastG ys).map KeyFrame.pts_time := by
  intro xs
  induction xs with
  | nil =>
    intro ys lastF lastG _ hmap
    have : ys = [] := by
      cases ys with
      | nil => rfl
      | cons y ys' => simp at hmap
    subst this
    rfl
  | cons f xs' ih =>
    intro ys lastF lastG hlast hmap
    cases ys with
    | nil => simp at hmap
    | cons g ys' =>
      simp only [List.map_cons, List.cons.injEq] at hmap
      obtain ⟨hfg, hmap'⟩ := hmap
      rw [filterAux, filterAux, hfg, hlast]
      by_cases h : (g.pts_time : Int) - (lastG.pts_time : Int) > 180
      · rw [if_pos h, if_pos h]
        simp only [List.map_cons, List.cons.injEq]
        exact ⟨hfg, ih ys' f g hfg hmap'⟩
      · rw [if_neg h, if_neg h]
        exact ih ys' lastF lastG hlast hmap'

theorem chapterBlocks_map_pts : ∀ (xs ys : List KeyFrame) (o : Option Nat) (idx : Nat),
    xs.map KeyFrame.pts_time = ys.map KeyFrame.pts_time →
    chapterBlocks o idx xs = chapterBlocks o idx ys := by
  intro xs
  induction xs with
  | nil =>
    intro ys o idx hmap
    have : ys = [] := by
      cases ys with
      | nil => rfl
      | cons y ys' => simp at hmap
    subst this
    rfl
  | cons f xs' ih =>
    intro ys o idx hmap
    cases ys with
    | nil => simp at hmap
    | cons g ys' =>
      simp only [List.map_cons, List.cons.injEq] at hmap
      obtain ⟨hfg, hmap'⟩ := hmap
      cases o with
      | none =>
        rw [chapterBlocks, chapterBlocks, hfg, ih ys' (some g.pts_time) (idx + 1) hmap']
      | some lastT =>
        rw [chapterBlocks, chapterBlocks, hfg, ih ys' (some g.pts_time) (idx + 1) hmap']

/-- Claim C10: for any two keyframe sequences that agree pairwise on
`pts_time` but differ arbitrarily in `pkt_pos`, `filterFrames` selects
the same number of elements with the same timestamps, and
`generateChapterMetadata` of the two selections renders identical
chapter documents — `pkt_pos` never influences downstream output. -/
theorem claimC10_pkt_pos_noninterference (xs ys : List KeyFrame)
    (h : xs.map KeyFrame.pts_time = ys.map KeyFrame.pts_time) :
    (filterFrames xs).map KeyFrame.pts_time = (filterFrames ys).map KeyFrame.pts_time ∧
    (filterFrames xs).length = (filterFrames ys).length ∧
    generateChapterMetadata (filterFrames xs) = generateChapterMetadata (filterFrames ys) := by
  have hmap : (filterFrames xs).map KeyFrame.pts_time =
      (filterFrames ys).map KeyFrame.pts_time := by
    cases xs with
    | nil =>
      cases ys with
      | nil => rfl
      | cons y ys' => simp at h
    | cons f xs' =>
      cases ys with
      | nil => simp at h
      | cons g ys' =>
        have hfg : f.pts_time = g.pts_time := by
          simp only [List.map_cons, List.cons.injEq] at h
          exact h.1
        rw [filterFrames, filterFrames]
        exact filterAux_map_pts (f :: xs') (g :: ys') f g hfg h
  refine ⟨hmap, ?_, ?_⟩
  · have := congrArg List.length hmap
    simpa using this
  · rw [generateChapterMetadata, generateChapterMetadata,
      chapterBlocks_map_pts (filterFrames xs) (filterFrames ys) none 0 hmap]

/-- Witness for claim C10: two sequences with equal timestamps and
different byte offsets produce the same filtered timestamps and the same
rendered document. -/
theorem claimC10_pkt_pos_noninterference_witness :
    ([⟨0, 1⟩, ⟨200, 2⟩] : List KeyFrame).map KeyFrame.pts_time =
      ([⟨0, 77⟩, ⟨200, 88⟩] : List KeyFrame).map KeyFrame.pts_time ∧
    generateChapterMetadata (filterFrames [⟨0, 1⟩, ⟨200, 2⟩]) =
      generateChapterMetadata (filterFrames [⟨0, 77⟩, ⟨200, 88⟩]) := by
  refine ⟨by decide, ?_⟩
  exact (claimC10_pkt_pos_noninterference [⟨0, 1⟩, ⟨200, 2⟩] [⟨0, 77⟩, ⟨200, 88⟩]
    (by decide)).2.2

/-! ### The FrameRecord Parser and field order -/

/-- Claim C2 counterexample: a descriptor block containing both fields
but with `pkt_pos` *before* `pts_time` is rejected by the `KeyFrame`
constructor (the regex `.*pts_time=(\d+).*pkt_pos=(\d+).*` requires
`pts_time` to occur before `pkt_pos`), so parsing does not succeed in
either order. -/
theorem claimC2_order_counterexample :
    parseKeyFrame (("pkt_pos=5 pts_time=3").data) = none := by decide

/-- Claim C2 (amended): the `KeyFrame` constructor succeeds on every
block in which a `pts_time=` field with at least one digit occurs
*before* a `pkt_pos=` field with at least one digit (the converse order
alone is rejected, see the counterexample). -/
theorem claimC2_parse_succeeds_pts_before_pkt (g : List Char) (a b : Nat)
    (hpts : occursAtPos ptsField g a = true) (hda : digitAt g (a + 9) = true)
    (hpkt : occursAtPos pktField g b = true) (hdb : digitAt g (b + 8) = true)
    (hab : a + 10 ≤ b) :
    (parseKeyFrame g).isSome = true := by
  have hblt : b < g.length := by
    have := digitAt_lt hdb
    omega
  have halt : a < g.length := by omega
  have hinner : ∀ a' : Nat, a' ≤ a →
      ((List.range g.length).any (fun b' =>
        decide (a' + 10 ≤ b') && occursAtPos pktField g b' && digitAt g (b' + 8))) = true := by
    intro a' ha'
    rw [List.any_eq_true]
    refine ⟨b, List.mem_range.mpr hblt, ?_⟩
    rw [Bool.and_eq_true, Bool.and_eq_true]
    exact ⟨⟨by simpa using (by omega : a' + 10 ≤ b), hpkt⟩, hdb⟩
  have hcand : ptsCandidate g a = true := by
    rw [ptsCandidate, Bool.and_eq_true, Bool.and_eq_true]
    exact ⟨⟨hpts, hda⟩, hinner a (le_refl a)⟩
  obtain ⟨a', ha'⟩ := lastSat_isSome g (ptsCandidate g) halt hcand
  have hcand' := (lastSat_pred ha').1
  rw [ptsCandidate, Bool.and_eq_true, Bool.and_eq_true] at hcand'
  obtain ⟨⟨_, _⟩, hany⟩ := hcand'
  rw [List.any_eq_true] at hany
  obtain ⟨b', hb'mem, hb'⟩ := hany
  obtain ⟨b'', hb''⟩ := lastSat_isSome g
    (fun b' => decide (a' + 10 ≤ b') && occursAtPos pktField g b' && digitAt g (b' + 8))
    (List.mem_range.mp hb'mem) hb'
  simp [parseKeyFrame, ha', hb'']

/-- Witness for the amended claim C2 at the concrete block
`pts_time=7pkt_pos=9`. -/
theorem claimC2_parse_succeeds_pts_before_pkt_witness :
    occursAtPos ptsField (("pts_time=7pkt_pos=9").data) 0 = true ∧
    occursAtPos pktField (("pts_time=7pkt_pos=9").data) 10 = true ∧
    (parseKeyFrame (("pts_time=7pkt_pos=9").data)).isSome = true := by
  refine ⟨by decide, by decide, ?_⟩
  exact claimC2_parse_succeeds_pts_before_pkt (("pts_time=7pkt_pos=9").data) 0 10
    (by decide) (by decide) (by decide) (by decide) (by decide)

/-! ### Error handling in the Collector -/

theorem parseKeyFrame_none_of_absent (g : List Char)
    (h : containsSub ptsField g = false ∨ containsSub pktField g = false) :
    parseKeyFrame g = none := by
  have hcand : ∀ a ∈ List.range g.length, ¬ ptsCandidate g a = true := by
    intro a ha hc
    rw [ptsCandidate, Bool.and_eq_true, Bool.and_eq_true] at hc
    obtain ⟨⟨hpts, _⟩, hany⟩ := hc
    rcases h with h | h
    · rw [containsSub] at h
      have := List.any_eq_true.mpr ⟨a, ha, hpts⟩
      rw [h] at this
      exact Bool.noConfusion this
    · rw [List.any_eq_true] at hany
      obtain ⟨b, hbmem, hb⟩ := hany
      rw [Bool.and_eq_true, Bool.and_eq_true] at hb
      rw [containsSub] at h
      have := List.any_eq_true.mpr ⟨b, hbmem, hb.1.2⟩
      rw [h] at this
      exact Bool.noConfusion this
  have hfil : (List.range g.length).filter (ptsCandidate g) = [] :=
    List.filter_eq_nil_iff.mpr hcand
  rw [parseKeyFrame, lastSat, hfil]
  rfl

/-- Claim C8: when the buffer matches a keyframe-flagged block whose
captured frame data lacks the `pts_time=` field (or the `pkt_pos=`
field), `write` throws the parse error (`couldn't parse framedata`) —
the failure is signaled, not silently skipped — and the collector state
it leaves behind still holds the full buffer and the unchanged keyframe
sequence: the unparsable block is not advanced past, and the scan
terminates by throwing rather than looping. -/
theorem claimC8_malformed_block_throws (st : CollectorState) (chunk : List Char)
    (m : FrameMatch)
    (hm : matchFrame (st.stringBuffer ++ chunk) = some m)
    (hflag : m.flag = '1')
    (habsent : containsSub ptsField m.group1 = false ∨
      containsSub pktField m.group1 = false) :
    write st chunk = .err parseErrMsg ⟨st.stringBuffer ++ chunk, st.keyFrames⟩ := by
  have hparse := parseKeyFrame_none_of_absent m.group1 habsent
  simp only [write, writeLoop, hm, hflag, if_true, hparse]

/-- Witness for claim C8: a keyframe-flagged block with no `pts_time`
field throws and leaves the buffer untouched. -/
theorem claimC8_malformed_block_throws_witness :
    matchFrame (([] : List Char) ++ ("[FRAME]key_frame=1x[/FRAME]").data) =
      some ⟨0, 7, 19, '1', ("key_frame=1x").data⟩ ∧
    containsSub ptsField (("key_frame=1x").data) = false ∧
    write collectorInit (("[FRAME]key_frame=1x[/FRAME]").data) =
      .err parseErrMsg ⟨("[FRAME]key_frame=1x[/FRAME]").data, []⟩ := by
  refine ⟨by decide, by decide, ?_⟩
  have h := claimC8_malformed_block_throws collectorInit
    (("[FRAME]key_frame=1x[/FRAME]").data) ⟨0, 7, 19, '1', ("key_frame=1x").data⟩
    (by decide) (by decide) (Or.inl (by decide))
  simpa using h

theorem writeLoop_no_match {fuel : Nat} {st : CollectorState}
    (h : matchFrame st.stringBuffer = none) : writeLoop fuel st = .ok st := by
  cases fuel with
  | zero => rfl
  | succ f => rw [writeLoop, h]

theorem matchFrame_bounds {s : List Char} {m : FrameMatch}
    (h : matchFrame s = some m) :
    m.mStart + 7 ≤ m.kfPos ∧ m.kfPos + 11 ≤ m.closePos ∧ m.closePos + 8 ≤ s.length := by
  rw [matchFrame] at h
  cases hi : firstOcc openMarker s with
  | none => simp only [hi] at h; exact Option.noConfusion h
  | some i =>
    simp only [hi] at h
    cases hj : lastSat s (keyCandidate s i) with
    | none => simp only [hj] at h; exact Option.noConfusion h
    | some j =>
      simp only [hj] at h
      cases hk : lastSat s (fun k => decide (j + 11 ≤ k) && occursAtPos closeMarker s k) with
      | none => simp only [hk] at h; exact Option.noConfusion h
      | some k =>
        simp only [hk] at h
        have hm : m = ⟨i, j, k, (s.drop (j + 10)).headD ' ',
            (s.drop (i + 7)).take (k - (i + 7))⟩ := (Option.some.inj h).symm
        subst hm
        have hjp := lastSat_pred hj
        rw [keyCandidate, Bool.and_eq_true, Bool.and_eq_true, Bool.and_eq_true] at hjp
        obtain ⟨⟨⟨⟨hij, _⟩, _⟩, _⟩, _⟩ := hjp
        have hkp := lastSat_pred hk
        rw [Bool.and_eq_true] at hkp
        obtain ⟨⟨hjk, hocc⟩, hklt⟩ := hkp
        refine ⟨by simpa using of_decide_eq_true hij, by simpa using of_decide_eq_true hjk, ?_⟩
        have := occursAtPos_le hklt hocc
        simp only [closeMarker] at this
        simpa using this

theorem removeMatch_length {s : List Char} {m : FrameMatch}
    (h : matchFrame s = some m) : (removeMatch s m).length + 26 ≤ s.length := by
  obtain ⟨h1, h2, h3⟩ := matchFrame_bounds h
  rw [removeMatch, List.length_append, List.length_take, List.length_drop]
  have hmin : min m.mStart s.length = m.mStart := Nat.min_eq_left (by omega)
  omega

/-- The fuel driving `writeLoop` is irrelevant as soon as it exceeds the
buffer length: each iteration removes a matched span of at least 26
characters, so the fuelled loop is exactly the unbounded `while` loop of
the source. -/
theorem writeLoop_fuel_congr : ∀ (n : Nat) (st : CollectorState),
    st.stringBuffer.length ≤ n → ∀ f1 f2 : Nat,
    st.stringBuffer.length < f1 → st.stringBuffer.length < f2 →
    writeLoop f1 st = writeLoop f2 st := by
  intro n
  induction n with
  | zero =>
    intro st hle f1 f2 h1 h2
    have hnil : st.stringBuffer = [] := List.length_eq_zero.mp (by omega)
    have hm : matchFrame st.stringBuffer = none := by rw [hnil]; rfl
    rw [writeLoop_no_match hm, writeLoop_no_match hm]
  | succ n ih =>
    intro st hle f1 f2 h1 h2
    cases f1 with
    | zero => omega
    | succ g1 =>
      cases f2 with
      | zero => omega
      | succ g2 =>
        rw [writeLoop, writeLoop]
        cases hm : matchFrame st.stringBuffer with
        | none => rfl
        | some m =>
          have hrm := removeMatch_length hm
          by_cases hf : m.flag = '1'
          · simp only [hf, if_true]
            cases parseKeyFrame m.group1 with
            | none => rfl
            | some kf =>
              exact ih ⟨removeMatch st.stringBuffer m, st.keyFrames ++ [kf]⟩
                (show (removeMatch st.stringBuffer m).length ≤ n by omega) g1 g2
                (show (removeMatch st.stringBuffer m).length < g1 by omega)
                (show (removeMatch st.stringBuffer m).length < g2 by omega)
          · simp only [hf, if_false]
            exact ih ⟨removeMatch st.stringBuffer m, st.keyFrames⟩
              (show (removeMatch st.stringBuffer m).length ≤ n by omega) g1 g2
              (show (removeMatch st.stringBuffer m).length < g1 by omega)
              (show (removeMatch st.stringBuffer m).length < g2 by omega)

/-- Claim C9 (implicit): a complete descriptor block whose `key_frame`
flag is not `"1"` is removed from the pending buffer and discarded
without invoking the `KeyFrame` parser: when the remaining buffer holds
no further complete block, `write` returns normally (no error even if
the discarded block lacks `pts_time`/`pkt_pos`) with the keyframe
sequence unchanged and the matched span removed. -/
theorem claimC9_non_keyframe_discarded (st : CollectorState) (chunk : List Char)
    (m : FrameMatch)
    (hm : matchFrame (st.stringBuffer ++ chunk) = some m)
    (hflag : ¬ m.flag = '1')
    (hrest : matchFrame (removeMatch (st.stringBuffer ++ chunk) m) = none) :
    write st chunk = .ok ⟨removeMatch (st.stringBuffer ++ chunk) m, st.keyFrames⟩ := by
  simp only [write, writeLoop, hm, hflag, if_false]
  exact writeLoop_no_match hrest

/-- Witness for claim C9: a block flagged `key_frame=0` that also lacks
both numeric fields is discarded without an error and without touching
the keyframe sequence. -/
theorem claimC9_non_keyframe_discarded_witness :
    matchFrame (([] : List Char) ++ ("[FRAME]key_frame=0 x[/FRAME]").data) =
      some ⟨0, 7, 20, '0', ("key_frame=0 x").data⟩ ∧
    containsSub ptsField (("key_frame=0 x").data) = false ∧
    write collectorInit (("[FRAME]key_frame=0 x[/FRAME]").data) = .ok ⟨[], []⟩ := by
  refine ⟨by decide, by decide, ?_⟩
  have h := claimC9_non_keyframe_discarded collectorInit
    (("[FRAME]key_frame=0 x[/FRAME]").data) ⟨0, 7, 20, '0', ("key_frame=0 x").data⟩
    (by decide) (by decide) (by decide)
  simpa using h

/-! ### Re-parsing the rendered document (spec side, for the round-trip
claim: "rendering then re-parsing chapter START/END pairs recovers
exactly the boundary subsequence used to generate them") -/

/-- split a character stream at newline characters. -/
def splitLines : List Char → List (List Char)
  | [] => [[]]
  | c :: rest =>
    if c = '\n' then
      [] :: splitLines rest
    else
      match splitLines rest with
      | [] => [[c]]
      | l :: ls => (c :: l) :: ls

def startTag : List Char := ['S', 'T', 'A', 'R', 'T', '=']

def endTag : List Char := ['E', 'N', 'D', '=']

def titleTag : List Char := ['t', 'i', 't', 'l', 'e', '=', 'C', 'h', 'a', 'p', 't', 'e', 'r', ' ']

/-- Modelled from the spec: re-parse one `START=`/`END=` payload as a
decimal integer. -/
def parseNatLine (cs : List Char) : Option Nat :=
  if cs = [] then none
  else if cs.all Char.isDigit then some (natOfDigits cs) else none

/-- Modelled from the spec: the `START=` values of a document, in order. -/
def startEntries (ls : List (List Char)) : List Nat :=
  ls.filterMap (fun l => if startTag.isPrefixOf l then parseNatLine (l.drop 6) else none)

/-- Modelled from the spec: the `END=` values of a document, in order. -/
def endEntries (ls : List (List Char)) : List Nat :=
  ls.filterMap (fun l => if endTag.isPrefixOf l then parseNatLine (l.drop 4) else none)

/-- Modelled from the spec: the `(START, END)` pairs re-parsed from a
rendered chapter document. -/
def reparseStartEnd (doc : List Char) : List (Nat × Nat) :=
  (startEntries (splitLines doc)).zip (endEntries (splitLines doc))

/-- the expected `START` column: the previous boundary's timestamp,
seeded by the baseline. -/
def specStarts : Nat → List KeyFrame → List Nat
  | _, [] => []
  | lastT, f :: rest => lastT :: specStarts f.pts_time rest

theorem splitLines_append_newline (xs ys : List Char) (h : '\n' ∉ xs) :
    splitLines (xs ++ '\n' :: ys) = xs :: splitLines ys := by
  induction xs with
  | nil =>
    rw [List.nil_append, splitLines, if_pos rfl]
  | cons c xs' ih =>
    have hc : ¬ c = '\n' := fun hcc => h (hcc ▸ List.mem_cons_self c xs')
    have h' : '\n' ∉ xs' := fun hm => h (List.mem_cons_of_mem c hm)
    rw [List.cons_append, splitLines, if_neg hc, ih h']

theorem isPrefixOf_self_append (p x : List Char) : p.isPrefixOf (p ++ x) = true :=
  List.isPrefixOf_iff_prefix.mpr (List.prefix_append p x)

theorem isPrefixOf_ne_head (a b : Char) (as bs : List Char) (h : ¬ a = b) :
    List.isPrefixOf (a :: as) (b :: bs) = false := by
  have hb : (a == b) = false := beq_eq_false_iff_ne.mpr h
  show ((a == b) && List.isPrefixOf as bs) = false
  rw [hb, Bool.false_and]

theorem startTag_not_on_endline (x : List Char) :
    startTag.isPrefixOf (endTag ++ x) = false := by
  show List.isPrefixOf ('S' :: ['T', 'A', 'R', 'T', '=']) ('E' :: ('N' :: 'D' :: '=' :: x)) = false
  exact isPrefixOf_ne_head _ _ _ _ (by decide)

theorem startTag_not_on_titleline (x : List Char) :
    startTag.isPrefixOf (titleTag ++ x) = false := by
  show List.isPrefixOf ('S' :: ['T', 'A', 'R', 'T', '='])
    ('t' :: (['i', 't', 'l', 'e', '=', 'C', 'h', 'a', 'p', 't', 'e', 'r', ' '] ++ x)) = false
  exact isPrefixOf_ne_head _ _ _ _ (by decide)

theorem endTag_not_on_startline (x : List Char) :
    endTag.isPrefixOf (startTag ++ x) = false := by
  show List.isPrefixOf ('E' :: ['N', 'D', '=']) ('S' :: ('T' :: 'A' :: 'R' :: 'T' :: '=' :: x)) = false
  exact isPrefixOf_ne_head _ _ _ _ (by decide)

theorem endTag_not_on_titleline (x : List Char) :
    endTag.isPrefixOf (titleTag ++ x) = false := by
  show List.isPrefixOf ('E' :: ['N', 'D', '='])
    ('t' :: (['i', 't', 'l', 'e', '=', 'C', 'h', 'a', 'p', 't', 'e', 'r', ' '] ++ x)) = false
  exact isPrefixOf_ne_head _ _ _ _ (by decide)

theorem startEntries_skip {l : List Char} (ls : List (List Char))
    (h : startTag.isPrefixOf l = false) : startEntries (l :: ls) = startEntries ls :=
  List.filterMap_cons_none (by simp [h])

theorem startEntries_keep {l : List Char} (ls : List (List Char)) {n : Nat}
    (h : startTag.isPrefixOf l = true) (hp : parseNatLine (l.drop 6) = some n) :
    startEntries (l :: ls) = n :: startEntries ls :=
  List.filterMap_cons_some (by simp [h, hp])

theorem endEntries_skip {l : List Char} (ls : List (List Char))
    (h : endTag.isPrefixOf l = false) : endEntries (l :: ls) = endEntries ls :=
  List.filterMap_cons_none (by simp [h])

theorem endEntries_keep {l : List Char} (ls : List (List Char)) {n : Nat}
    (h : endTag.isPrefixOf l = true) (hp : parseNatLine (l.drop 4) = some n) :
    endEntries (l :: ls) = n :: endEntries ls :=
  List.filterMap_cons_some (by simp [h, hp])

theorem parseNatLine_natDigits (t : Nat) : parseNatLine (natDigits t) = some t := by
  rw [parseNatLine, if_neg natDigits_ne_nil,
    if_pos (List.all_eq_true.mpr fun c hc => natDigits_digits c hc),
    natOfDigits_natDigits]

theorem startline_parse (t : Nat) :
    parseNatLine ((startTag ++ natDigits t).drop 6) = some t := by
  have hd : (startTag ++ natDigits t).drop 6 = natDigits t := List.drop_left startTag _
  rw [hd, parseNatLine_natDigits]

theorem endline_parse (t : Nat) :
    parseNatLine ((endTag ++ natDigits t).drop 4) = some t := by
  have hd : (endTag ++ natDigits t).drop 4 = natDigits t := List.drop_left endTag _
  rw [hd, parseNatLine_natDigits]

theorem newline_not_mem_startline (t : Nat) : '\n' ∉ startTag ++ natDigits t := by
  intro hm
  rcases List.mem_append.mp hm with hm | hm
  · exact absurd hm (by decide)
  · exact natDigits_ne_newline hm

theorem newline_not_mem_endline (t : Nat) : '\n' ∉ endTag ++ natDigits t := by
  intro hm
  rcases List.mem_append.mp hm with hm | hm
  · exact absurd hm (by decide)
  · exact natDigits_ne_newline hm

theorem newline_not_mem_titleline (t : Nat) : '\n' ∉ titleTag ++ natDigits t := by
  intro hm
  rcases List.mem_append.mp hm with hm | hm
  · exact absurd hm (by decide)
  · exact natDigits_ne_newline hm

theorem block_shape (u v w : Nat) (rest : List Char) :
    ("[CHAPTER]\nTIMEBASE=1/1\nSTART=").data ++ natDigits u ++ ("\nEND=").data ++
        natDigits v ++ ("\ntitle=Chapter ").data ++ natDigits w ++ ("\n").data ++ rest =
      ("[CHAPTER]").data ++ '\n' :: (("TIMEBASE=1/1").data ++ '\n' ::
        ((startTag ++ natDigits u) ++ '\n' :: ((endTag ++ natDigits v) ++ '\n' ::
          ((titleTag ++ natDigits w) ++ '\n' :: rest)))) := by
  simp only [List.append_assoc]
  rfl

theorem chapterBlocks_none_as_some (bs : List KeyFrame) :
    chapterBlocks none 0 bs = chapterBlocks (some 0) 0 bs := by
  cases bs with
  | nil => rfl
  | cons f rest =>
    rw [chapterBlocks, chapterBlocks]
    simp only [List.append_assoc]
    rfl

theorem entries_blocks : ∀ (bs : List KeyFrame) (lastT idx : Nat),
    startEntries (splitLines (chapterBlocks (some lastT) idx bs)) = specStarts lastT bs ∧
    endEntries (splitLines (chapterBlocks (some lastT) idx bs)) = bs.map KeyFrame.pts_time := by
  intro bs
  induction bs with
  | nil => intro lastT idx; exact ⟨rfl, rfl⟩
  | cons f rest ih =>
    intro lastT idx
    rw [chapterBlocks, block_shape,
      splitLines_append_newline (("[CHAPTER]").data) _ (by decide),
      splitLines_append_newline (("TIMEBASE=1/1").data) _ (by decide),
      splitLines_append_newline (startTag ++ natDigits lastT) _ (newline_not_mem_startline lastT),
      splitLines_append_newline (endTag ++ natDigits f.pts_time) _ (newline_not_mem_endline _),
      splitLines_append_newline (titleTag ++ natDigits (idx + 1)) _ (newline_not_mem_titleline _)]
    constructor
    · rw [startEntries_skip _ (by decide), startEntries_skip _ (by decide),
        startEntries_keep _ (isPrefixOf_self_append startTag _) (startline_parse lastT),
        startEntries_skip _ (startTag_not_on_endline _),
        startEntries_skip _ (startTag_not_on_titleline _),
        (ih f.pts_time (idx + 1)).1, specStarts]
    · rw [endEntries_skip _ (by decide), endEntries_skip _ (by decide),
        endEntries_skip _ (endTag_not_on_startline _),
        endEntries_keep _ (isPrefixOf_self_append endTag _) (endline_parse f.pts_time),
        endEntries_skip _ (endTag_not_on_titleline _),
        (ih f.pts_time (idx + 1)).2, List.map_cons]

theorem zip_specStarts : ∀ (bs : List KeyFrame) (lastT : Nat),
    (specStarts lastT bs).zip (bs.map KeyFrame.pts_time) =
      (lastT :: bs.map KeyFrame.pts_time).zip (bs.map KeyFrame.pts_time) := by
  intro bs
  induction bs with
  | nil => intro lastT; rfl
  | cons f rest ih =>
    intro lastT
    simp only [specStarts, List.map_cons, List.zip_cons_cons]
    rw [ih f.pts_time]

/-- Claim C6: rendering a boundary subsequence and re-parsing the
`START`/`END` pairs of the document recovers exactly that subsequence:
record `i` ends at boundary `i`'s timestamp, record 1 starts at `0`, and
record `i > 1` starts at boundary `i - 1`'s timestamp (the pair list is
the zip of the `0`-seeded timestamp column with the timestamp column). -/
theorem claimC6_round_trip (bs : List KeyFrame) :
    reparseStartEnd (generateChapterMetadata bs) =
      (0 :: bs.map KeyFrame.pts_time).zip (bs.map KeyFrame.pts_time) ∧
    (reparseStartEnd (generateChapterMetadata bs)).map Prod.snd =
      bs.map KeyFrame.pts_time := by
  have hdoc : splitLines (generateChapterMetadata bs) =
      (";FFMETADATA1").data :: splitLines (chapterBlocks none 0 bs) := by
    rw [generateChapterMetadata,
      show (";FFMETADATA1\n").data ++ chapterBlocks none 0 bs =
        (";FFMETADATA1").data ++ '\n' :: chapterBlocks none 0 bs from rfl]
    exact splitLines_append_newline _ _ (by decide)
  have hpairs : reparseStartEnd (generateChapterMetadata bs) =
      (0 :: bs.map KeyFrame.pts_time).zip (bs.map KeyFrame.pts_time) := by
    rw [reparseStartEnd, hdoc, startEntries_skip _ (by decide),
      endEntries_skip _ (by decide), chapterBlocks_none_as_some,
      (entries_blocks bs 0 0).1, (entries_blocks bs 0 0).2, zip_specStarts]
  refine ⟨hpairs, ?_⟩
  rw [hpairs]
  exact List.map_snd_zip _ _ (by simp)

end Chapterizer
